import Mathlib

/-!
Shallow embedding of the Geumcheon audit-report parsing service (src/app.py).

Text is modelled as `List Char` (Python `str`).  Hangul identifiers are not
valid Lean identifiers, so the source's Korean field names are transliterated
to the English names used by the specification:
  건명 → title, 처분 → disposition, 관련규정 → regulation, 지적사항 → description,
  감사연도 → auditYear, 피감기관 → agency, 감사결과 → findings.
Each definition carries a comment naming the source lines it embeds.
-/

/-! ## Data model (src/app.py lines 25-37, Pydantic schemas) -/

/-- `AuditResult` (app.py lines 25-29): one finding, four string fields
건명/처분/관련규정/지적사항. -/
structure AuditResult where
  title : List Char
  disposition : List Char
  regulation : List Char
  description : List Char
deriving DecidableEq, Repr

/-- `ResearchPaperExtraction` (app.py lines 31-34): 감사연도, 피감기관 and the
list 감사결과 of findings. -/
structure ResearchPaperExtraction where
  auditYear : List Char
  agency : List Char
  findings : List AuditResult
deriving DecidableEq, Repr

/-! ## Generic string helpers -/

/-- Python substring containment `needle in hay` (note Python's `in` returns
True for the empty needle). -/
def containsSub (hay needle : List Char) : Bool :=
  match hay with
  | [] => needle.isEmpty
  | _ :: t => needle.isPrefixOf hay || containsSub t needle

/-- Lowercasing used to model Python `str.lower()` and MongoDB's `$options: "i"`
for the ASCII range (the repository's data is Korean, on which both are the
identity). -/
def toLowerL (s : List Char) : List Char := s.map Char.toLower

/-! ## Text Cleaner: `filter_relevant` (app.py lines 52-57) -/

/-- The line-break characters recognised by Python `str.splitlines`. -/
def isLineBreak (c : Char) : Bool :=
  c == '\n' || c == '\r' || c == '\x0b' || c == '\x0c' ||
  c == '\x1c' || c == '\x1d' || c == '\x1e' || c == '\x85' ||
  c == '\u2028' || c == '\u2029'

/-- Collapse each `"\r\n"` pair to a single `'\n'`; `str.splitlines` treats the
pair as one boundary, and every other boundary is a single character. -/
def normCRLF : List Char → List Char
  | [] => []
  | c :: rest =>
    if c == '\r' && rest.head? == some '\n' then normCRLF rest
    else c :: normCRLF rest

/-- Worker for `pySplitlines` on CRLF-normalised text: `cur` is the reversed
current line; a trailing boundary produces no empty final line. -/
def splitAux (cur : List Char) : List Char → List (List Char)
  | [] => [cur.reverse]
  | c :: rest =>
    if isLineBreak c then
      cur.reverse :: (if rest.isEmpty then [] else splitAux [] rest)
    else splitAux (c :: cur) rest

/-- Python `str.splitlines()` on a character list. -/
def pySplitlines (cs : List Char) : List (List Char) :=
  match cs with
  | [] => []
  | _ => splitAux [] (normCRLF cs)

/-- The keyword tuple `keys` of `filter_relevant` (app.py line 53):
시정, 주의, 기타, 회수, 추징, 추급, 환급, 징계, 훈계, 관련규정. -/
def keysK : List (List Char) :=
  [['시','정'], ['주','의'], ['기','타'], ['회','수'], ['추','징'],
   ['추','급'], ['환','급'], ['징','계'], ['훈','계'], ['관','련','규','정']]

/-- `any(k in ln for k in keys)` (app.py line 55). -/
def hasKey (ln : List Char) : Bool := keysK.any (fun k => containsSub ln k)

/-- One five-character window of the drop regex
`\d{2,}/\d{2,}|-{5,}|={5,}` (app.py line 56) anchored at the head.
`re.search` of that pattern succeeds iff some five-character window is
digit-digit-slash-digit-digit, five dashes, or five equals signs.
(Python `\d` is Unicode digits; only `Char.isDigit` digits appear in the
properties proved here.) -/
def dropPatAt (l : List Char) : Bool :=
  match l with
  | a :: b :: c :: d :: e :: _ =>
      (a.isDigit && b.isDigit && c == '/' && d.isDigit && e.isDigit) ||
      (a == '-' && b == '-' && c == '-' && d == '-' && e == '-') ||
      (a == '=' && b == '=' && c == '=' && d == '=' && e == '=')
  | _ => false

/-- `re.search(r"\d{2,}/\d{2,}|-{5,}|={5,}", ln)` is truthy (app.py line 56). -/
def dropPat (l : List Char) : Bool :=
  match l with
  | [] => false
  | _ :: t => dropPatAt l || dropPat t

/-- Python `"\n".join(lines)`. -/
def joinNL : List (List Char) → List Char
  | [] => []
  | l :: ls =>
    match ls with
    | [] => l
    | _ :: _ => l ++ '\n' :: joinNL ls

/-- `filter_relevant` (app.py lines 52-57): keep the lines containing one of
the ten keywords, among those drop the ones matching the page/border regex,
keep at most the first 6000, and re-join with newlines. -/
def filter_relevant (text : List Char) : List Char :=
  let lines := pySplitlines text
  let picked := lines.filter hasKey
  let picked2 := picked.filter (fun ln => !dropPat ln)
  joinNL (picked2.take 6000)

/-! ## `chunk_text` (app.py lines 59-63) -/

/-- Fueled transcription of the generator loop
`i = 0; while i < n: yield s[i:i+size]; i += size - overlap`.
The fuel only bounds the number of loop iterations; for `overlap < size` the
supplied fuel is never exhausted (proved below). -/
def chunkIter (s : List Char) (size step : Nat) : Nat → Nat → List (List Char)
  | 0, _ => []
  | fuel + 1, i =>
    if i < s.length then ((s.drop i).take size) :: chunkIter s size step fuel (i + step)
    else []

/-- `chunk_text(s, size, overlap)` (app.py lines 59-63) as the list of all
yielded windows. -/
def chunk_text (s : List Char) (size : Nat := 3000) (overlap : Nat := 150) :
    List (List Char) :=
  chunkIter s size (size - overlap) (s.length + 1) 0

/-- Number of windows the loop yields: `⌈n / step⌉`. -/
def numWindows (n step : Nat) : Nat := (n + step - 1) / step

/-! ## JSON values and `json.loads` (used by the fallback chain) -/

/-- Generic JSON values as produced by `json.loads`. Numbers keep their source
literal; object member lists keep textual order (duplicate keys are resolved
by `getKey` below, last occurrence winning, as in a Python dict). -/
inductive Json where
  | str (s : List Char)
  | num (lit : List Char)
  | bool (b : Bool)
  | null
  | arr (elems : List Json)
  | obj (members : List (List Char × Json))

/-- JSON insignificant whitespace (the set `json.loads` skips). -/
def isJsonWs (c : Char) : Bool := c == ' ' || c == '\t' || c == '\n' || c == '\r'

/-- Hexadecimal digit value, for `\uXXXX` escapes. -/
def hexVal (c : Char) : Option Nat :=
  if '0' ≤ c ∧ c ≤ '9' then some (c.toNat - 48)
  else if 'a' ≤ c ∧ c ≤ 'f' then some (c.toNat - 87)
  else if 'A' ≤ c ∧ c ≤ 'F' then some (c.toNat - 55)
  else none

/-- The single-character JSON string escape table, escape letter paired with
its decoded character. -/
def escPairs : List (Char × Char) :=
  [('"', '"'), ('\\', '\\'), ('/', '/'), ('b', '\x08'),
   ('f', '\x0c'), ('n', '\n'), ('r', '\r'), ('t', '\t')]

/-- Decode one single-character JSON string escape, if it is one. -/
def escChar (c : Char) : Option Char :=
  (escPairs.find? (fun pr => pr.1 == c)).map (fun pr => pr.2)

/-- Parse the body of a JSON string (the opening quote already consumed);
returns the decoded content and the remaining input after the closing quote.
(`\uXXXX` is decoded by scalar value; surrogate pairing is not modelled.) -/
def parseStr : List Char → Option (List Char × List Char)
  | [] => none
  | c :: rest =>
    if c == '"' then some ([], rest)
    else if c == '\\' then
      match rest with
      | [] => none
      | e :: rest2 =>
        if e == 'u' then
          match rest2 with
          | a :: b :: c2 :: d :: rest3 =>
            match hexVal a, hexVal b, hexVal c2, hexVal d with
            | some h1, some h2, some h3, some h4 =>
              (parseStr rest3).map
                (fun p => (Char.ofNat (((h1 * 16 + h2) * 16 + h3) * 16 + h4) :: p.1, p.2))
            | _, _, _, _ => none
          | _ => none
        else
          match escChar e with
          | some ec => (parseStr rest2).map (fun p => (ec :: p.1, p.2))
          | none => none
    else (parseStr rest).map (fun p => (c :: p.1, p.2))

/-- JSON number: `-? int frac? exp?`, kept as its literal text. -/
def parseNum (cs : List Char) : Option (Json × List Char) :=
  let sp := match cs with
    | c :: r => if c == '-' then (([c] : List Char), r) else (([] : List Char), cs)
    | [] => (([] : List Char), cs)
  let ip := sp.2.takeWhile Char.isDigit
  let cs2 := sp.2.dropWhile Char.isDigit
  if ip.isEmpty then none
  else if 1 < ip.length && ip.head? == some '0' then none
  else
    match cs2 with
    | '.' :: r =>
      let ds := r.takeWhile Char.isDigit
      if ds.isEmpty then none
      else
        let lit := sp.1 ++ ip ++ '.' :: ds
        let cs3 := r.dropWhile Char.isDigit
        match cs3 with
        | e :: r2 =>
          if e == 'e' || e == 'E' then
            let sp2 := match r2 with
              | s :: r3 => if s == '+' || s == '-' then (([s] : List Char), r3) else (([] : List Char), r2)
              | [] => (([] : List Char), r2)
            let es := sp2.2.takeWhile Char.isDigit
            if es.isEmpty then none
            else some (Json.num (lit ++ e :: sp2.1 ++ es), sp2.2.dropWhile Char.isDigit)
          else some (Json.num lit, cs3)
        | [] => some (Json.num lit, [])
    | e :: r2 =>
      if e == 'e' || e == 'E' then
        let sp2 := match r2 with
          | s :: r3 => if s == '+' || s == '-' then (([s] : List Char), r3) else (([] : List Char), r2)
          | [] => (([] : List Char), r2)
        let es := sp2.2.takeWhile Char.isDigit
        if es.isEmpty then none
        else some (Json.num (sp.1 ++ ip ++ e :: sp2.1 ++ es), sp2.2.dropWhile Char.isDigit)
      else some (Json.num (sp.1 ++ ip), cs2)
    | [] => some (Json.num (sp.1 ++ ip), [])

mutual

/-- Recursive-descent JSON value parser; the fuel only bounds recursion and is
chosen large enough in `parseJson` for any input it could consume. -/
def parseVal : Nat → List Char → Option (Json × List Char)
  | 0, _ => none
  | fuel + 1, cs =>
    match cs.dropWhile isJsonWs with
    | [] => none
    | c :: rest =>
      if c == '"' then (parseStr rest).map (fun p => (Json.str p.1, p.2))
      else if c == '\x7b' then
        let cs2 := rest.dropWhile isJsonWs
        if cs2.head? == some '\x7d' then some (Json.obj [], cs2.tail)
        else parseMembers fuel rest []
      else if c == '[' then
        let cs2 := rest.dropWhile isJsonWs
        if cs2.head? == some ']' then some (Json.arr [], cs2.tail)
        else parseElems fuel rest []
      else if c == 't' then
        if rest.take 3 == ['r','u','e'] then some (Json.bool true, rest.drop 3) else none
      else if c == 'f' then
        if rest.take 4 == ['a','l','s','e'] then some (Json.bool false, rest.drop 4) else none
      else if c == 'n' then
        if rest.take 3 == ['u','l','l'] then some (Json.null, rest.drop 3) else none
      else parseNum (c :: rest)

/-- Comma-separated array elements after `[`. -/
def parseElems : Nat → List Char → List Json → Option (Json × List Char)
  | 0, _, _ => none
  | fuel + 1, cs, acc =>
    match parseVal fuel cs with
    | none => none
    | some (v, rest) =>
      match rest.dropWhile isJsonWs with
      | ',' :: rest2 => parseElems fuel rest2 (v :: acc)
      | ']' :: rest2 => some (Json.arr (v :: acc).reverse, rest2)
      | _ => none

/-- Comma-separated `"key": value` members after a non-empty `\x7b`. -/
def parseMembers : Nat → List Char → List (List Char × Json) →
    Option (Json × List Char)
  | 0, _, _ => none
  | fuel + 1, cs, acc =>
    match cs.dropWhile isJsonWs with
    | '"' :: rest =>
      match parseStr rest with
      | none => none
      | some (k, rest2) =>
        match rest2.dropWhile isJsonWs with
        | ':' :: rest3 =>
          match parseVal fuel rest3 with
          | none => none
          | some (v, rest4) =>
            match rest4.dropWhile isJsonWs with
            | ',' :: rest5 => parseMembers fuel rest5 ((k, v) :: acc)
            | '\x7d' :: rest5 => some (Json.obj ((k, v) :: acc).reverse, rest5)
            | _ => none
        | _ => none
    | _ => none

end

/-- `json.loads`: parse one JSON value and require only whitespace after it. -/
def parseJson (cs : List Char) : Option Json :=
  match parseVal (2 * cs.length + 2) cs with
  | some (v, rest) => if (rest.dropWhile isJsonWs).isEmpty then some v else none
  | none => none

/-! ## `coerce_json_from_text` (app.py lines 43-50) -/

/-- Characters removed by Python `str.strip()` (ASCII whitespace; the wider
Unicode space classes never arise in the texts treated here). -/
def isPySpace (c : Char) : Bool :=
  c == ' ' || c == '\t' || c == '\n' || c == '\r' || c == '\x0b' || c == '\x0c'

/-- Python `str.strip()`. -/
def pyStrip (l : List Char) : List Char :=
  ((l.dropWhile isPySpace).reverse.dropWhile isPySpace).reverse

/-- The backtick character (spelled by code point). -/
def btick : Char := Char.ofNat 96

/-- Opening fence prefixes recognised by `re.sub(r"^```(?:json)?", "", s)`:
the seven-character form is preferred (regex greediness). -/
def fence7 : List Char := [btick, btick, btick, 'j', 's', 'o', 'n']

/-- Three backticks. -/
def fence3 : List Char := [btick, btick, btick]

/-- `re.sub(r"^```(?:json)?", "", s)` (app.py line 45). -/
def stripFenceOpen (s : List Char) : List Char :=
  if fence7.isPrefixOf s then s.drop 7
  else if fence3.isPrefixOf s then s.drop 3
  else s

/-- `re.sub(r"```$", "", s)` (app.py line 46). -/
def stripFenceClose (s : List Char) : List Char :=
  if fence3.isSuffixOf s then s.take (s.length - 3) else s

/-- `s.rfind(c)` as an optional index. -/
def rfindIdx (c : Char) (s : List Char) : Option Nat :=
  match s.reverse.findIdx? (· == c) with
  | some k => some (s.length - 1 - k)
  | none => none

/-- The brace-span cut of app.py lines 47-50: from the first `\x7b` to the
last `\x7d`, when that span is non-degenerate. -/
def braceSpan (s2 : List Char) : List Char :=
  match s2.findIdx? (· == '\x7b'), rfindIdx '\x7d' s2 with
  | some st, some en => if st < en then (s2.drop st).take (en + 1 - st) else s2
  | some _, none => s2
  | none, _ => s2

/-- `coerce_json_from_text` (app.py lines 43-50): strip outer whitespace and
markdown fences with re-stripping after each removal, then cut out the brace
span. -/
def coerce_json_from_text (raw : List Char) : List Char :=
  braceSpan (pyStrip (stripFenceClose (pyStrip (stripFenceOpen (pyStrip raw)))))

/-! ## Schema validation (Pydantic models, app.py lines 25-37) -/

/-- Key 감사연도 (audit year). -/
def kYear : List Char := ['감','사','연','도']
/-- Key 피감기관 (inspected agency). -/
def kAgency : List Char := ['피','감','기','관']
/-- Key 감사결과 (finding list). -/
def kFindings : List Char := ['감','사','결','과']
/-- Key 건명 (finding title). -/
def kTitle : List Char := ['건','명']
/-- Key 처분 (disposition). -/
def kDisp : List Char := ['처','분']
/-- Key 관련규정 (cited regulation). -/
def kReg : List Char := ['관','련','규','정']
/-- Key 지적사항 (finding description). -/
def kDesc : List Char := ['지','적','사','항']

/-- Key lookup in a parsed JSON object; as in a Python dict built by
`json.loads`, the last occurrence of a duplicated key wins. -/
def getKey (kvs : List (List Char × Json)) (k : List Char) : Option Json :=
  (kvs.reverse.find? (fun kv => kv.1 == k)).map (fun kv => kv.2)

/-- Pydantic validation of one `AuditResult`: an object whose four required
fields are strings (extra keys are ignored, Pydantic's default). -/
def validateAR (j : Json) : Option AuditResult :=
  match j with
  | Json.obj kvs =>
    match getKey kvs kTitle, getKey kvs kDisp, getKey kvs kReg, getKey kvs kDesc with
    | some (Json.str t), some (Json.str dp), some (Json.str rg), some (Json.str ds) =>
        some ⟨t, dp, rg, ds⟩
    | _, _, _, _ => none
  | _ => none

/-- Pydantic validation of `ResearchPaperExtraction`: 감사연도 and 피감기관
must be strings and 감사결과 a list of valid `AuditResult`s. -/
def validateRPE (j : Json) : Option ResearchPaperExtraction :=
  match j with
  | Json.obj kvs =>
    match getKey kvs kYear, getKey kvs kAgency, getKey kvs kFindings with
    | some (Json.str y), some (Json.str a), some (Json.arr items) =>
        (items.mapM validateAR).map (fun fs => ⟨y, a, fs⟩)
    | _, _, _ => none
  | _ => none

/-- `ResearchPaperExtraction.model_validate_json` (stage 2, app.py line 161):
parse the raw text as JSON and validate it against the schema. -/
def stage2 (text : List Char) : Option ResearchPaperExtraction :=
  match parseJson text with
  | some v => validateRPE v
  | none => none

/-- The default-key coercion of app.py lines 184-187: when 감사연도 or
피감기관 is absent, rebuild the dict from exactly the three schema keys with
empty-string / empty-list defaults; otherwise the data is left untouched
(in particular a missing 감사결과 is NOT defaulted then). Non-dict data is
returned unchanged: every non-object value fails `validateRPE` afterwards,
matching the exception Python raises on it. -/
def coerceKeys (j : Json) : Json :=
  match j with
  | Json.obj kvs =>
    if (getKey kvs kYear).isNone || (getKey kvs kAgency).isNone then
      Json.obj [(kYear, (getKey kvs kYear).getD (Json.str [])),
                (kAgency, (getKey kvs kAgency).getD (Json.str [])),
                (kFindings, (getKey kvs kFindings).getD (Json.arr []))]
    else Json.obj kvs
  | other => other

/-- Outcome of the single-call fallback chain (app.py lines 160-188). -/
inductive FallbackResult where
  | direct (r : ResearchPaperExtraction)
  | coerced (r : ResearchPaperExtraction)
  | needsRepair
  | fail
deriving DecidableEq, Repr

/-- The fallback chain of app.py lines 160-188, given the model response
text: stage 2 validates directly; otherwise stage 3 coerces the text, parses
it as generic JSON, applies the key defaults and validates — a JSON parse
failure (and only that) reaches the stage-4 repair re-prompt
(`needsRepair`), while a validation failure after a successful parse raises
out of the handler (`fail`). -/
def fallback_chain (text : List Char) : FallbackResult :=
  match stage2 text with
  | some r => FallbackResult.direct r
  | none =>
    match parseJson (coerce_json_from_text text) with
    | some d =>
      match validateRPE (coerceKeys d) with
      | some r => FallbackResult.coerced r
      | none => FallbackResult.fail
    | none => FallbackResult.needsRepair

/-- A model response consisting of valid JSON wrapped in markdown code
fences, the recovery case of app.py lines 163-165. -/
def wrapFence (j : List Char) : List Char :=
  fence7 ++ '\n' :: (j ++ '\n' :: fence3)

/-! ## Chunked extraction (app.py lines 199-271) -/

/-- Outcome of processing one window in the chunking loop (app.py lines
212-252): `ok items` — the window's findings were extracted (directly, via
coercion, or via a successful repair) and `all_items.extend`ed; `skipped` —
the window (or its repair) was safety-blocked and `continue`d over;
`fatal` — an exception escaped the per-window handlers (e.g. the repair
response failed schema validation at line 250), aborting the whole loop into
the outer handler at lines 270-271. -/
inductive ChunkOutcome where
  | ok (items : List AuditResult)
  | skipped
  | fatal
deriving DecidableEq, Repr

/-- The `for` loop of app.py lines 212-252 over the per-window outcomes:
`Except.ok` carries `all_items`, `Except.error` the abort into the outer
exception handler. -/
def runChunks : List ChunkOutcome → Except Unit (List AuditResult)
  | [] => Except.ok []
  | ChunkOutcome.ok items :: rest => (runChunks rest).map (fun xs => items ++ xs)
  | ChunkOutcome.skipped :: rest => runChunks rest
  | ChunkOutcome.fatal :: _ => Except.error ()

/-- The chunking branch's result construction (app.py lines 254-262): an
abort or an empty `all_items` (`st.stop`) produces no record; otherwise the
final `ResearchPaperExtraction` has empty 감사연도 and 피감기관 and the
accumulated findings. -/
def chunkBranch (outs : List ChunkOutcome) : Option ResearchPaperExtraction :=
  match runChunks outs with
  | Except.error _ => none
  | Except.ok items => if items.isEmpty then none else some ⟨[], [], items⟩

/-! ## `call_with_optional_safety` (app.py lines 86-109) -/

/-- Whether `is_safety_blocked` (app.py lines 86-87) holds of a response. -/
inductive Resp where
  | blocked
  | fine
deriving DecidableEq, Repr

/-- What one `model.generate_content` call does: return a response, raise a
quota/rate-limit exception, or raise any other exception. -/
inductive CallOut where
  | ret (r : Resp)
  | raiseQuota
  | raiseOther
deriving DecidableEq, Repr

/-- How `call_with_optional_safety` ends: `stopped` is the `st.stop()` on a
quota error, `raised` a re-raised exception, `returned` a response handed to
the caller. -/
inductive CWOSOut where
  | stopped
  | raised
  | returned (r : Resp)
deriving DecidableEq, Repr

/-- `call_with_optional_safety` (app.py lines 89-109), abstracted over an
oracle giving the outcome of the n-th `generate_content` call; returns the
result together with the number of model calls made.  Call 0 is the plain
call (quota errors stop, others re-raise); a blocked response triggers call 1
with `SAFETY_RELAXED`; if call 1 raises anything, the bare call 2 without
safety settings is made (line 108) and its exception, if any, propagates. -/
def call_with_optional_safety (oracle : Nat → CallOut) : CWOSOut × Nat :=
  match oracle 0 with
  | CallOut.raiseQuota => (CWOSOut.stopped, 1)
  | CallOut.raiseOther => (CWOSOut.raised, 1)
  | CallOut.ret Resp.fine => (CWOSOut.returned Resp.fine, 1)
  | CallOut.ret Resp.blocked =>
    match oracle 1 with
    | CallOut.ret r2 => (CWOSOut.returned r2, 2)
    | _ =>
      match oracle 2 with
      | CallOut.ret r3 => (CWOSOut.returned r3, 3)
      | _ => (CWOSOut.raised, 3)

/-- Call count stated by the amended claim: one call unless the first
response is safety-blocked; then one relaxed retry, and a third, plain call
exactly when the relaxed retry raises. -/
def numCallsAmended (oracle : Nat → CallOut) : Nat :=
  match oracle 0 with
  | CallOut.ret Resp.blocked =>
    match oracle 1 with
    | CallOut.ret _ => 2
    | _ => 3
  | _ => 1

/-! ## Record store search (app.py lines 295-328) -/

/-- Case-insensitive substring match, modelling both MongoDB
`$regex .. $options: "i"` for a literal (metacharacter-free) keyword and
Python's `keyword.lower() in blob.lower()`. -/
def ciContains (hay needle : List Char) : Bool :=
  containsSub (toLowerL hay) (toLowerL needle)

/-- The `$or` of the `$elemMatch` (app.py lines 300-305): the keyword matches
at least one of the four fields of one finding. -/
def fieldMatch (q : List Char) (a : AuditResult) : Bool :=
  ciContains a.title q || ciContains a.disposition q ||
  ciContains a.regulation q || ciContains a.description q

/-- The Mongo document filter (app.py lines 297-309): some finding of the
document matches per-field. -/
def docMatch (q : List Char) (d : ResearchPaperExtraction) : Bool :=
  d.findings.any (fieldMatch q)

/-- The concatenation `건명 + 처분 + 관련규정 + 지적사항` built by the display
loop (app.py lines 317-322). -/
def blobOf (a : AuditResult) : List Char :=
  a.title ++ a.disposition ++ a.regulation ++ a.description

/-- The display filter `search_query.lower() in blob.lower()`
(app.py line 323). -/
def blobMatch (q : List Char) (a : AuditResult) : Bool :=
  ciContains (blobOf a) q

/-- The whole search flow (app.py lines 295-328): Mongo returns the documents
with at least one per-field matching finding, and for each such document the
display loop shows the findings whose concatenated fields contain the
keyword. -/
def searchResults (q : List Char) (docs : List ResearchPaperExtraction) :
    List (ResearchPaperExtraction × List AuditResult) :=
  (docs.filter (docMatch q)).map (fun d => (d, d.findings.filter (blobMatch q)))

/-! ## Helper lemmas -/

theorem runChunks_map_ok (lists : List (List AuditResult)) :
    runChunks (lists.map ChunkOutcome.ok) = Except.ok lists.flatten := by
  induction lists with
  | nil => rfl
  | cons l rest ih => simp [runChunks, ih, Except.map]

theorem isPrefixOf_append_of_isPrefixOf (n l r : List Char)
    (h : n.isPrefixOf l = true) : n.isPrefixOf (l ++ r) = true := by
  rw [List.isPrefixOf_iff_prefix] at h ⊢
  exact h.trans (List.prefix_append l r)

theorem containsSub_append_right (h n r : List Char)
    (hc : containsSub h n = true) : containsSub (h ++ r) n = true := by
  induction h with
  | nil =>
    simp [containsSub] at hc
    subst hc
    cases r with
    | nil => rfl
    | cons c t => simp [containsSub, List.isPrefixOf]
  | cons c t ih =>
    simp only [containsSub, Bool.or_eq_true] at hc ⊢
    rcases hc with hp | ht
    · exact Or.inl (isPrefixOf_append_of_isPrefixOf _ _ _ hp)
    · exact Or.inr (ih ht)

theorem containsSub_append_left (h n l : List Char)
    (hc : containsSub h n = true) : containsSub (l ++ h) n = true := by
  induction l with
  | nil => exact hc
  | cons c t ih =>
    simp only [List.cons_append, containsSub, Bool.or_eq_true]
    exact Or.inr ih

theorem fieldMatch_imp_blobMatch (q : List Char) (a : AuditResult)
    (h : fieldMatch q a = true) : blobMatch q a = true := by
  simp only [fieldMatch, Bool.or_eq_true, ciContains] at h
  simp only [blobMatch, ciContains, blobOf, toLowerL, List.map_append]
  rcases h with ((h | h) | h) | h
  · exact containsSub_append_right _ _ _
      (containsSub_append_right _ _ _ (containsSub_append_right _ _ _ h))
  · exact containsSub_append_right _ _ _
      (containsSub_append_right _ _ _ (containsSub_append_left _ _ _ h))
  · exact containsSub_append_right _ _ _
      (containsSub_append_left _ _ _ h)
  · exact containsSub_append_left _ _ _ h

/-! ## C3: chunked extraction concatenates per-window findings -/

/-- C3. When every window independently yields a list of findings (no window
skipped or aborted) and at least one finding is extracted, the chunking
branch produces a record whose finding list is the in-order concatenation of
the per-window lists, with no de-duplication, and whose 감사연도 and
피감기관 are empty strings. -/
theorem c3_chunk_concat (lists : List (List AuditResult))
    (h : lists.flatten ≠ []) :
    chunkBranch (lists.map ChunkOutcome.ok) = some ⟨[], [], lists.flatten⟩ := by
  simp only [chunkBranch, runChunks_map_ok]
  simp [List.isEmpty_iff, h]

/-- Finding used by the C3 witness. -/
def arC3 : AuditResult := ⟨['건'], ['시','정'], ['규'], ['지']⟩

/-- Witness for C3 at two windows yielding the same finding: the duplicate is
kept (no de-duplication). -/
theorem c3_chunk_concat_witness :
    ([[arC3], [arC3]] : List (List AuditResult)).flatten ≠ [] ∧
    chunkBranch ([[arC3], [arC3]].map ChunkOutcome.ok) =
      some ⟨[], [], [arC3, arC3]⟩ :=
  ⟨by decide, c3_chunk_concat [[arC3], [arC3]] (by decide)⟩

/-! ## C7: partial results across windows -/

/-- Finding used by the C7 counterexample. -/
def arC7 : AuditResult := ⟨['주','의'], ['주','의'], ['규'], ['지']⟩

/-- Counterexample to C7 as stated: a first window yields a finding, the
second window's repair chain is exhausted (its repaired response fails
schema validation, app.py line 250), and the escaping exception aborts into
the outer handler — no final result is produced, so the earlier finding is
NOT kept, although without the failing window it would have been reported. -/
theorem c7_counterexample :
    chunkBranch [ChunkOutcome.ok [arC7], ChunkOutcome.fatal] = none ∧
    chunkBranch [ChunkOutcome.ok [arC7]] = some ⟨[], [], [arC7]⟩ := by
  decide

/-- C7 (amended). Windows are processed left to right: appending a
safety-blocked (skipped) window leaves the accumulated findings unchanged,
appending a succeeding window appends its findings at the end, but appending
a window whose repair chain is exhausted (fatal) aborts the whole chunked
extraction, discarding all earlier findings. -/
theorem c7_partial_results (outs : List ChunkOutcome) (l : List AuditResult) :
    runChunks (outs ++ [ChunkOutcome.skipped]) = runChunks outs ∧
    runChunks (outs ++ [ChunkOutcome.ok l]) =
      (runChunks outs).map (fun xs => xs ++ l) ∧
    runChunks (outs ++ [ChunkOutcome.fatal]) = Except.error () := by
  induction outs with
  | nil => simp [runChunks, Except.map]
  | cons o rest ih =>
    cases o with
    | ok items =>
      refine ⟨?_, ?_, ?_⟩
      · simp [runChunks, ih.1]
      · simp only [List.cons_append, runChunks, List.append_eq]
        rw [ih.2.1]
        cases runChunks rest <;> simp [Except.map, List.append_assoc]
      · simp [runChunks, ih.2.2, Except.map]
    | skipped => simpa [runChunks] using ih
    | fatal => simp [runChunks, Except.map]

/-! ## C6: safety-retry behaviour -/

/-- Oracle for the C6 counterexample: the first call returns a blocked
response, the relaxed retry raises, the bare third call succeeds. -/
def oracleC6 : Nat → CallOut := fun n =>
  if n = 0 then CallOut.ret Resp.blocked
  else if n = 1 then CallOut.raiseOther
  else CallOut.ret Resp.fine

/-- Counterexample to C6 as stated: after a safety block and a failing
relaxed retry, `call_with_optional_safety` makes a third model call
(app.py line 108), so the claim "no further model calls are made beyond that
single retry" (at most two calls) fails. -/
theorem c6_counterexample :
    (call_with_optional_safety oracleC6).2 = 3 ∧
    ¬ (call_with_optional_safety oracleC6).2 ≤ 2 := by
  decide

/-- C6 (amended). One model call is made when the first response is not
safety-blocked (or the first call raises); a blocked first response triggers
exactly one retry with relaxed safety settings, whose response — blocked or
not — is final; but if that relaxed retry raises, exactly one further call
with default settings is made. Hence never more than three calls. -/
theorem c6_retry_counts (oracle : Nat → CallOut) :
    (call_with_optional_safety oracle).2 = numCallsAmended oracle ∧
    (call_with_optional_safety oracle).2 ≤ 3 := by
  unfold call_with_optional_safety numCallsAmended
  rcases h0 : oracle 0 with r0 | _ | _
  · rcases r0 with _ | _
    · rcases h1 : oracle 1 with r1 | _ | _
      · simp [h0, h1]
      · rcases h2 : oracle 2 with r2 | _ | _ <;> simp [h0, h1, h2]
      · rcases h2 : oracle 2 with r2 | _ | _ <;> simp [h0, h1, h2]
    · simp [h0]
  · simp [h0]
  · simp [h0]

/-! ## C2: keyword search -/

/-- Finding for the C2 counterexample whose fields do not individually
contain the keyword, while their concatenation does. -/
def arC2A : AuditResult := ⟨['x','감'], ['사','y'], [], []⟩

/-- Finding for the C2 counterexample that matches per-field. -/
def arC2B : AuditResult := ⟨['감','사'], [], [], []⟩

/-- Stored document for the C2 counterexample. -/
def docC2 : ResearchPaperExtraction := ⟨[], [], [arC2A, arC2B]⟩

/-- Counterexample to C2 as stated: searching 감사 over one stored document
returns BOTH findings — `arC2A` is displayed although the keyword matches
none of its four fields (it only appears across the 건명/처분 boundary of the
concatenated blob at app.py lines 317-323), while the claim says exactly the
per-field matching findings are returned. -/
theorem c2_counterexample :
    searchResults ['감','사'] [docC2] = [(docC2, [arC2A, arC2B])] ∧
    fieldMatch ['감','사'] arC2A = false := by
  decide

/-- C2 (amended). In both directions: every entry of the search result is a
stored document having at least one per-field matching finding, and its
displayed findings are exactly those whose four concatenated fields contain
the keyword case-insensitively — a superset of the per-field matches, which
are all displayed; conversely, every stored document with at least one
per-field matching finding IS returned, grouped with exactly its
blob-matching findings. Documents without a per-field matching finding are
excluded, even when the keyword matches across one of their findings'
field boundaries. -/
theorem c2_search_grouping (q : List Char) (docs : List ResearchPaperExtraction)
    (d : ResearchPaperExtraction) :
    (∀ fs : List AuditResult, (d, fs) ∈ searchResults q docs →
      d ∈ docs ∧ docMatch q d = true ∧
      fs = d.findings.filter (blobMatch q) ∧
      ∀ a ∈ d.findings, fieldMatch q a = true → a ∈ fs) ∧
    (d ∈ docs → docMatch q d = true →
      (d, d.findings.filter (blobMatch q)) ∈ searchResults q docs) := by
  constructor
  · intro fs h
    simp only [searchResults, List.mem_map, List.mem_filter] at h
    obtain ⟨d', ⟨hmem, hdm⟩, heq⟩ := h
    obtain ⟨hd, hfs⟩ := Prod.mk.injEq .. ▸ heq
    subst hd
    refine ⟨hmem, hdm, hfs.symm, ?_⟩
    intro a ha hfm
    rw [← hfs]
    exact List.mem_filter.mpr ⟨ha, fieldMatch_imp_blobMatch q a hfm⟩
  · intro hmem hdm
    exact List.mem_map.mpr ⟨d, List.mem_filter.mpr ⟨hmem, hdm⟩, rfl⟩

/-- Keyword for the C2 witness. -/
def qC2w : List Char := ['주','의']

/-- Finding for the C2 witness. -/
def arC2w : AuditResult := ⟨['주','의'], [], [], []⟩

/-- Document for the C2 witness. -/
def docC2w : ResearchPaperExtraction := ⟨[], [], [arC2w]⟩

/-- Witness for C2 (amended) at a one-document store with a per-field
match, exercising both directions. -/
theorem c2_search_grouping_witness :
    ((docC2w, [arC2w]) ∈ searchResults qC2w [docC2w] ∧
     docC2w ∈ [docC2w] ∧ docMatch qC2w docC2w = true ∧
     [arC2w] = docC2w.findings.filter (blobMatch qC2w)) ∧
    (docC2w, docC2w.findings.filter (blobMatch qC2w)) ∈
      searchResults qC2w [docC2w] :=
  ⟨⟨by decide,
    ((c2_search_grouping qC2w [docC2w] docC2w).1 [arC2w] (by decide)).1,
    ((c2_search_grouping qC2w [docC2w] docC2w).1 [arC2w] (by decide)).2.1,
    ((c2_search_grouping qC2w [docC2w] docC2w).1 [arC2w] (by decide)).2.2.1⟩,
   (c2_search_grouping qC2w [docC2w] docC2w).2 (by decide) (by decide)⟩

/-! ## Line lemmas for the Text Cleaner -/

theorem mem_splitAux_breakfree (cs : List Char) :
    ∀ cur : List Char, (∀ c ∈ cur, isLineBreak c = false) →
      ∀ l ∈ splitAux cur cs, ∀ c ∈ l, isLineBreak c = false := by
  induction cs with
  | nil =>
    intro cur hcur l hl c hc
    simp only [splitAux, List.mem_singleton] at hl
    subst hl
    exact hcur c (List.mem_reverse.mp hc)
  | cons a rest ih =>
    intro cur hcur l hl c hc
    by_cases ha : isLineBreak a = true
    · simp only [splitAux, ha, if_true, List.mem_cons] at hl
      rcases hl with hl | hl
      · subst hl
        exact hcur c (List.mem_reverse.mp hc)
      · rcases hrest : rest.isEmpty with _ | _
        · rw [hrest] at hl
          simp at hl
          exact ih [] (by simp) l hl c hc
        · rw [hrest] at hl
          simp at hl
    · simp only [splitAux, ha, if_false] at hl
      refine ih (a :: cur) ?_ l hl c hc
      intro c' hc'
      rcases List.mem_cons.mp hc' with h | h
      · subst h; simpa using ha
      · exact hcur c' h

theorem pySplitlines_breakfree (cs : List Char) :
    ∀ l ∈ pySplitlines cs, ∀ c ∈ l, isLineBreak c = false := by
  cases cs with
  | nil => intro l hl; simp [pySplitlines] at hl
  | cons a rest =>
    intro l hl
    exact mem_splitAux_breakfree _ [] (by simp) l hl

theorem splitAux_run (l : List Char) :
    ∀ cur, (∀ c ∈ l, isLineBreak c = false) →
      splitAux cur l = [cur.reverse ++ l] := by
  induction l with
  | nil => intro cur _; simp [splitAux]
  | cons a rest ih =>
    intro cur hl
    have ha : isLineBreak a = false := hl a (List.mem_cons_self a rest)
    simp only [splitAux, ha, if_false, Bool.false_eq_true]
    rw [ih (a :: cur) (fun c hc => hl c (List.mem_cons_of_mem a hc))]
    simp

theorem splitAux_append_break (l : List Char) :
    ∀ cur t, (∀ c ∈ l, isLineBreak c = false) →
      splitAux cur (l ++ '\n' :: t) =
        (cur.reverse ++ l) :: (if t.isEmpty then [] else splitAux [] t) := by
  induction l with
  | nil => intro cur t _; simp [splitAux, isLineBreak]
  | cons a rest ih =>
    intro cur t hl
    have ha : isLineBreak a = false := hl a (List.mem_cons_self a rest)
    simp only [List.cons_append, splitAux, ha, if_false, Bool.false_eq_true,
      List.append_eq]
    rw [ih (a :: cur) t (fun c hc => hl c (List.mem_cons_of_mem a hc))]
    simp

theorem normCRLF_id (l : List Char) (h : '\r' ∉ l) : normCRLF l = l := by
  induction l with
  | nil => rfl
  | cons a rest ih =>
    have ha : (a == '\r') = false := by
      simp only [beq_eq_false_iff_ne]
      intro hcontra
      exact h (hcontra ▸ List.mem_cons_self a rest)
    simp only [normCRLF, ha, Bool.false_and, Bool.false_eq_true, if_false]
    rw [ih (fun hm => h (List.mem_cons_of_mem a hm))]

theorem mem_joinNL (L : List (List Char)) (c : Char) (hc : c ∈ joinNL L) :
    (∃ l ∈ L, c ∈ l) ∨ c = '\n' := by
  induction L with
  | nil => simp [joinNL] at hc
  | cons l ls ih =>
    cases ls with
    | nil =>
      simp only [joinNL] at hc
      exact Or.inl ⟨l, List.mem_cons_self _ _, hc⟩
    | cons l2 ls2 =>
      simp only [joinNL, List.mem_append, List.mem_cons] at hc
      rcases hc with hc | hc | hc
      · exact Or.inl ⟨l, List.mem_cons_self _ _, hc⟩
      · exact Or.inr hc
      · rcases ih hc with ⟨l', hl', hc'⟩ | hc'
        · exact Or.inl ⟨l', List.mem_cons_of_mem l hl', hc'⟩
        · exact Or.inr hc'

theorem noCR_joinNL (L : List (List Char))
    (hbf : ∀ l ∈ L, ∀ c ∈ l, isLineBreak c = false) : '\r' ∉ joinNL L := by
  intro hmem
  rcases mem_joinNL L '\r' hmem with ⟨l, hl, hc⟩ | hc
  · have := hbf l hl '\r' hc
    simp [isLineBreak] at this
  · simp at hc

theorem joinNL_ne_nil (l : List Char) (ls : List (List Char)) (h : l ≠ []) :
    joinNL (l :: ls) ≠ [] := by
  cases ls with
  | nil => simpa [joinNL] using h
  | cons l2 ls2 =>
    simp only [joinNL]
    intro hcontra
    rcases List.append_eq_nil.mp hcontra with ⟨-, h2⟩
    exact List.cons_ne_nil _ _ h2

theorem pySplitlines_joinNL (L : List (List Char)) (hne : ∀ l ∈ L, l ≠ [])
    (hbf : ∀ l ∈ L, ∀ c ∈ l, isLineBreak c = false) :
    pySplitlines (joinNL L) = L := by
  induction L with
  | nil => rfl
  | cons l ls ih =>
    have hnorm : normCRLF (joinNL (l :: ls)) = joinNL (l :: ls) :=
      normCRLF_id _ (noCR_joinNL _ hbf)
    obtain ⟨a, l', rfl⟩ : ∃ a l', l = a :: l' := by
      cases l with
      | nil => exact absurd rfl (hne [] (List.mem_cons_self _ _))
      | cons a l' => exact ⟨a, l', rfl⟩
    cases ls with
    | nil =>
      show pySplitlines (joinNL [a :: l']) = [a :: l']
      simp only [joinNL]
      show splitAux [] (normCRLF (a :: l')) = [a :: l']
      rw [normCRLF_id _ (by
        intro hmem
        have := hbf _ (List.mem_cons_self _ _) '\r' hmem
        simp [isLineBreak] at this)]
      rw [splitAux_run _ [] (hbf _ (List.mem_cons_self _ _))]
      simp
    | cons l2 ls2 =>
      have hjoin : joinNL ((a :: l') :: l2 :: ls2) =
          (a :: l') ++ '\n' :: joinNL (l2 :: ls2) := rfl
      show pySplitlines (joinNL ((a :: l') :: l2 :: ls2)) = (a :: l') :: l2 :: ls2
      have hne2 : ∀ l ∈ l2 :: ls2, l ≠ [] :=
        fun x hx => hne x (List.mem_cons_of_mem _ hx)
      have hbf2 : ∀ l ∈ l2 :: ls2, ∀ c ∈ l, isLineBreak c = false :=
        fun x hx => hbf x (List.mem_cons_of_mem _ hx)
      have hJne : joinNL (l2 :: ls2) ≠ [] :=
        joinNL_ne_nil l2 ls2 (hne2 l2 (List.mem_cons_self _ _))
      have hstep : pySplitlines (joinNL ((a :: l') :: l2 :: ls2)) =
          splitAux [] (joinNL ((a :: l') :: l2 :: ls2)) := by
        rw [hjoin]
        show splitAux [] (normCRLF ((a :: l') ++ '\n' :: joinNL (l2 :: ls2))) = _
        rw [← hjoin, hnorm, hjoin]
      rw [hstep, hjoin, splitAux_append_break _ [] _ (hbf _ (List.mem_cons_self _ _))]
      have hJempty : (joinNL (l2 :: ls2)).isEmpty = false := by
        simpa [List.isEmpty_iff] using hJne
      rw [hJempty]
      simp only [Bool.false_eq_true, if_false, List.nil_append]
      congr 1
      have hJnorm : normCRLF (joinNL (l2 :: ls2)) = joinNL (l2 :: ls2) :=
        normCRLF_id _ (noCR_joinNL _ hbf2)
      have htail := ih hne2 hbf2
      obtain ⟨j, js, hJ⟩ := List.exists_cons_of_ne_nil hJne
      rw [hJ] at htail hJnorm ⊢
      have hred : splitAux [] (normCRLF (j :: js)) = l2 :: ls2 := htail
      rwa [hJnorm] at hred

theorem hasKey_nil : hasKey [] = false := by decide

theorem filter_relevant_lines (text : List Char) :
    pySplitlines (filter_relevant text) =
      ((pySplitlines text).filter (fun ln => !dropPat ln && hasKey ln)).take 6000 := by
  show pySplitlines
      (joinNL
        (((pySplitlines text).filter hasKey |>.filter (fun ln => !dropPat ln)).take 6000)) = _
  rw [List.filter_filter]
  set K := ((pySplitlines text).filter (fun ln => !dropPat ln && hasKey ln)).take 6000
    with hK
  have hmemK : ∀ l ∈ K, hasKey l = true ∧ l ∈ pySplitlines text := by
    intro l hl
    rw [hK] at hl
    have hl2 := List.take_subset _ _ hl
    have hl3 := List.mem_filter.mp hl2
    exact ⟨((Bool.and_eq_true _ _).mp hl3.2).2, hl3.1⟩
  refine pySplitlines_joinNL K ?_ ?_
  · intro l hl hnil
    subst hnil
    have h1 := (hmemK [] hl).1
    rw [hasKey_nil] at h1
    exact Bool.false_ne_true h1
  · intro l hl
    exact pySplitlines_breakfree text l (hmemK l hl).2

/-! ## C1: what the Text Cleaner keeps and drops -/

/-- Counterexample to C1 as stated: the line `hello` matches no drop rule —
in particular not the code's own page/border regex — and carries ordinary
content, yet `filter_relevant` removes it (it contains none of the ten
disposition keywords), so the cleaner does not keep every non-artifact line
verbatim. -/
theorem c1_counterexample :
    filter_relevant ['h','e','l','l','o'] = [] ∧
    dropPat ['h','e','l','l','o'] = false := by
  decide

/-- C1 (amended). The Text Cleaner keeps exactly the lines that contain one
of the ten disposition/heading keywords (시정, 주의, 기타, 회수, 추징, 추급,
환급, 징계, 훈계, 관련규정) and do not match the page-number/border regex
`\d{2,}/\d{2,}|-{5,}|={5,}`, verbatim and in input order, truncated to the
first 6000 such lines; every other line — including content lines without a
keyword — is dropped. -/
theorem c1_cleaner_keep_rule (text : List Char) :
    pySplitlines (filter_relevant text) =
      ((pySplitlines text).filter (fun ln => !dropPat ln && hasKey ln)).take 6000 :=
  filter_relevant_lines text

/-! ## C8: idempotence of the Text Cleaner -/

/-- C8. Cleaning already-cleaned text is a no-op: `filter_relevant` is
idempotent. -/
theorem c8_cleaner_idempotent (text : List Char) :
    filter_relevant (filter_relevant text) = filter_relevant text := by
  conv_lhs =>
    rw [show filter_relevant (filter_relevant text) =
      joinNL ((((pySplitlines (filter_relevant text)).filter hasKey).filter
        (fun ln => !dropPat ln)).take 6000) from rfl]
  rw [List.filter_filter, filter_relevant_lines]
  set F := (pySplitlines text).filter (fun ln => !dropPat ln && hasKey ln) with hF
  have hself : (F.take 6000).filter (fun ln => !dropPat ln && hasKey ln) =
      F.take 6000 := by
    refine List.filter_eq_self.mpr ?_
    intro a ha
    exact (List.mem_filter.mp (List.take_subset _ _ ha)).2
  rw [hself, List.take_take, min_self]
  conv_rhs =>
    rw [show filter_relevant text =
      joinNL ((((pySplitlines text).filter hasKey).filter
        (fun ln => !dropPat ln)).take 6000) from rfl]
  rw [List.filter_filter]

/-! ## C9: output lines come from the input, capped at 6000 -/

/-- C9. Every line of the cleaner's output is a line of its input, in the
same relative order (a sublist of the input's lines); the output never has
more than 6000 lines, and the kept lines beyond the first 6000 are
discarded (the output is exactly the 6000-truncation of the kept lines). -/
theorem c9_cleaner_bound (text : List Char) :
    (pySplitlines (filter_relevant text)).Sublist (pySplitlines text) ∧
    (pySplitlines (filter_relevant text)).length ≤ 6000 ∧
    pySplitlines (filter_relevant text) =
      ((pySplitlines text).filter (fun ln => !dropPat ln && hasKey ln)).take 6000 := by
  refine ⟨?_, ?_, filter_relevant_lines text⟩
  · rw [filter_relevant_lines]
    exact (List.take_sublist _ _).trans (List.filter_sublist _)
  · rw [filter_relevant_lines, List.length_take]
    exact min_le_left _ _

/-! ## C10: chunk_text terminates and covers the input -/

theorem numWindows_succ (a step : Nat) (hstep : 0 < step) (ha : 0 < a) :
    numWindows a step = numWindows (a - step) step + 1 := by
  unfold numWindows
  rcases le_or_lt a step with hle | hlt
  · have h1 : a - step = 0 := by omega
    rw [h1]
    simp only [Nat.zero_add]
    have h2 : (step - 1) / step = 0 := Nat.div_eq_of_lt (by omega)
    have h3 : (a + step - 1) / step = 1 := by
      refine Nat.div_eq_of_lt_le (by omega) (by omega)
    omega
  · have h1 : a + step - 1 = (a - step + step - 1) + step := by omega
    rw [h1, Nat.add_div_right _ hstep]

theorem chunkIter_closed (s : List Char) (size step : Nat) (hstep : 0 < step) :
    ∀ fuel i, s.length ≤ i + fuel * step →
      chunkIter s size step fuel i =
        (List.range (numWindows (s.length - i) step)).map
          (fun t => (s.drop (i + t * step)).take size) := by
  intro fuel
  induction fuel with
  | zero =>
    intro i h
    have h0 : s.length - i = 0 := by omega
    simp [chunkIter, numWindows, h0, Nat.div_eq_of_lt (show step - 1 < step by omega)]
  | succ fuel ih =>
    intro i h
    by_cases hi : i < s.length
    · simp only [chunkIter, hi, if_true]
      have hexp : (fuel + 1) * step = fuel * step + step := Nat.succ_mul fuel step
      rw [ih (i + step) (by omega)]
      have harith : numWindows (s.length - i) step =
          numWindows (s.length - (i + step)) step + 1 := by
        have h1 : s.length - (i + step) = (s.length - i) - step := by omega
        rw [h1]
        exact numWindows_succ (s.length - i) step hstep (by omega)
      rw [harith, List.range_succ_eq_map, List.map_cons, List.map_map]
      congr 1
      · simp
      · refine List.map_congr_left ?_
        intro t _
        simp only [Function.comp_apply]
        have h2 : i + (t + 1) * step = (i + step) + t * step := by
          rw [Nat.succ_mul]; omega
        rw [Nat.succ_eq_add_one, h2]
    · have h0 : s.length - i = 0 := by omega
      simp [chunkIter, hi, numWindows, h0,
        Nat.div_eq_of_lt (show step - 1 < step by omega)]

/-- C10. For window size strictly greater than the overlap (as called:
size 3000, overlap 150), `chunk_text` terminates with exactly
`⌈n / (size - overlap)⌉` windows whose start offsets advance by
`size - overlap`, and the windows jointly cover every character position of
the input. -/
theorem c10_chunk_windows (s : List Char) (size overlap : Nat)
    (h : overlap < size) :
    chunk_text s size overlap =
      (List.range (numWindows s.length (size - overlap))).map
        (fun t => (s.drop (t * (size - overlap))).take size) ∧
    ∀ k < s.length, ∃ t < numWindows s.length (size - overlap),
      t * (size - overlap) ≤ k ∧ k < t * (size - overlap) + size := by
  have hstep : 0 < size - overlap := by omega
  constructor
  · unfold chunk_text
    rw [chunkIter_closed s size (size - overlap) hstep (s.length + 1) 0
      (by
        have h1 : s.length + 1 ≤ (s.length + 1) * (size - overlap) :=
          Nat.le_mul_of_pos_right _ hstep
        omega)]
    simp
  · intro k hk
    refine ⟨k / (size - overlap), ?_, ?_, ?_⟩
    · unfold numWindows
      have h1 : s.length + (size - overlap) - 1 = (s.length - 1) + (size - overlap) := by
        omega
      rw [h1, Nat.add_div_right _ hstep]
      have h2 : k / (size - overlap) ≤ (s.length - 1) / (size - overlap) :=
        Nat.div_le_div_right (by omega)
      omega
    · exact Nat.div_mul_le_self k _
    · have hmod : k % (size - overlap) < size - overlap := Nat.mod_lt _ hstep
      have hdm := Nat.div_add_mod k (size - overlap)
      rw [Nat.mul_comm] at hdm
      omega

/-- Witness for C10 at a three-character input with window size 2 and
overlap 1. -/
theorem c10_chunk_windows_witness :
    (1 : Nat) < 2 ∧
    (chunk_text ['a','b','c'] 2 1 =
      (List.range (numWindows (['a','b','c'] : List Char).length (2 - 1))).map
        (fun t => ((['a','b','c'] : List Char).drop (t * (2 - 1))).take 2) ∧
     ∀ k < (['a','b','c'] : List Char).length,
       ∃ t < numWindows (['a','b','c'] : List Char).length (2 - 1),
         t * (2 - 1) ≤ k ∧ k < t * (2 - 1) + 2) :=
  ⟨by decide, c10_chunk_windows ['a','b','c'] 2 1 (by decide)⟩

/-! ## C5: key defaulting and when the repair prompt fires -/

/-- C5 (amended). On the coerced substring parsing as a generic JSON object,
the repair re-prompt is never issued — it fires exactly when stage 2 fails
AND that generic parse fails; the parsed object is passed through the key
coercion and then validated, `fail` meaning the validation exception
propagates. The coercion rebuilds the dict with empty-string/empty-list
defaults for all three keys exactly when 감사연도 or 피감기관 is missing;
when both are present the data is untouched, so a missing 감사결과 is NOT
defaulted and validation fails without any repair attempt. -/
theorem c5_default_coercion (text : List Char) (kvs : List (List Char × Json))
    (h1 : stage2 text = none)
    (h2 : parseJson (coerce_json_from_text text) = some (Json.obj kvs)) :
    fallback_chain text ≠ FallbackResult.needsRepair ∧
    fallback_chain text =
      (match validateRPE (coerceKeys (Json.obj kvs)) with
       | some r => FallbackResult.coerced r
       | none => FallbackResult.fail) ∧
    (((getKey kvs kYear).isNone || (getKey kvs kAgency).isNone) = true →
      coerceKeys (Json.obj kvs) =
        Json.obj [(kYear, (getKey kvs kYear).getD (Json.str [])),
                  (kAgency, (getKey kvs kAgency).getD (Json.str [])),
                  (kFindings, (getKey kvs kFindings).getD (Json.arr []))]) ∧
    (((getKey kvs kYear).isNone || (getKey kvs kAgency).isNone) = false →
      coerceKeys (Json.obj kvs) = Json.obj kvs) := by
  refine ⟨?_, ?_, ?_, ?_⟩
  · unfold fallback_chain
    rw [h1, h2]
    cases hval : validateRPE (coerceKeys (Json.obj kvs)) <;> simp [hval]
  · unfold fallback_chain
    rw [h1, h2]
  · intro hc
    simp [coerceKeys, hc]
  · intro hc
    simp [coerceKeys, hc]

/-- C5 counterexample input: a JSON object with 감사연도 and 피감기관 but no
감사결과. -/
def jC5 : List Char :=
  ['\x7b','"','감','사','연','도','"',':','"','a','"',',',
   '"','피','감','기','관','"',':','"','b','"','\x7d']

/-- Counterexample to C5 as stated: on `jC5` the generic parse succeeds and
감사결과 is missing, but — both other keys being present — it is NOT
replaced by the empty list; validation fails and the exception propagates
(`fail`), instead of the coerced success `⟨"a", "b", []⟩` the claim
predicts. -/
theorem c5_counterexample :
    fallback_chain jC5 = FallbackResult.fail ∧
    fallback_chain jC5 ≠
      FallbackResult.coerced ⟨['a'], ['b'], []⟩ := by
  refine ⟨rfl, fun h => ?_⟩
  have h0 : fallback_chain jC5 = FallbackResult.fail := rfl
  rw [h0] at h
  exact FallbackResult.noConfusion h

/-- C5 witness input: a JSON object with only 피감기관. -/
def jC5w : List Char :=
  ['\x7b','"','피','감','기','관','"',':','"','b','"','\x7d']

/-- The parsed members of `jC5w`. -/
def kvsC5w : List (List Char × Json) := [(kAgency, Json.str ['b'])]

/-- Witness for C5 (amended) at an object missing 감사연도: the defaults
kick in and the chain succeeds without any repair. -/
theorem c5_default_coercion_witness :
    stage2 jC5w = none ∧
    parseJson (coerce_json_from_text jC5w) = some (Json.obj kvsC5w) ∧
    (fallback_chain jC5w ≠ FallbackResult.needsRepair ∧
     fallback_chain jC5w =
       (match validateRPE (coerceKeys (Json.obj kvsC5w)) with
        | some r => FallbackResult.coerced r
        | none => FallbackResult.fail) ∧
     (((getKey kvsC5w kYear).isNone || (getKey kvsC5w kAgency).isNone) = true →
       coerceKeys (Json.obj kvsC5w) =
         Json.obj [(kYear, (getKey kvsC5w kYear).getD (Json.str [])),
                   (kAgency, (getKey kvsC5w kAgency).getD (Json.str [])),
                   (kFindings, (getKey kvsC5w kFindings).getD (Json.arr []))]) ∧
     (((getKey kvsC5w kYear).isNone || (getKey kvsC5w kAgency).isNone) = false →
       coerceKeys (Json.obj kvsC5w) = Json.obj kvsC5w)) :=
  ⟨rfl, rfl, c5_default_coercion jC5w kvsC5w rfl rfl⟩

/-! ## C4: fence-stripping recovers the unwrapped record -/

theorem pyStrip_cons_space (c : Char) (l : List Char) (hc : isPySpace c = true) :
    pyStrip (c :: l) = pyStrip l := by
  unfold pyStrip
  rw [List.dropWhile_cons, hc]
  simp

theorem pyStrip_sandwich (a b : Char) (mid : List Char)
    (ha : isPySpace a = false) (hb : isPySpace b = false) :
    pyStrip (a :: (mid ++ [b])) = a :: (mid ++ [b]) := by
  unfold pyStrip
  rw [List.dropWhile_cons, ha]
  simp only [Bool.false_eq_true, if_false]
  rw [show (a :: (mid ++ [b])).reverse = b :: (mid.reverse ++ [a]) by simp]
  rw [List.dropWhile_cons, hb]
  simp

theorem pyStrip_snoc_space (l : List Char) (c : Char) (hc : isPySpace c = true) :
    pyStrip (l ++ [c]) = pyStrip l := by
  unfold pyStrip
  rw [List.dropWhile_append]
  by_cases h : (List.dropWhile isPySpace l).isEmpty
  · rw [if_pos h]
    rw [List.isEmpty_iff.mp h]
    simp [List.dropWhile_cons, hc]
  · rw [if_neg h]
    rw [show ((List.dropWhile isPySpace l) ++ [c]).reverse =
      c :: (List.dropWhile isPySpace l).reverse by simp]
    rw [List.dropWhile_cons, hc]
    simp

theorem stripFenceOpen_fence7 (x : List Char) :
    stripFenceOpen (fence7 ++ x) = x := by
  unfold stripFenceOpen
  have hpre : fence7.isPrefixOf (fence7 ++ x) = true :=
    List.isPrefixOf_iff_prefix.mpr (List.prefix_append _ _)
  rw [hpre]
  simp only [if_true]
  exact List.drop_left fence7 x

theorem stripFenceClose_snoc (x : List Char) :
    stripFenceClose (x ++ fence3) = x := by
  unfold stripFenceClose
  have hsuf : fence3.isSuffixOf (x ++ fence3) = true :=
    List.isSuffixOf_iff_suffix.mpr ⟨x, rfl⟩
  rw [hsuf]
  simp only [if_true]
  have hlen : (x ++ fence3).length - 3 = x.length := by simp [fence3]
  rw [hlen]
  exact List.take_left x fence3

theorem parseVal_btick (fuel : Nat) (l : List Char) :
    parseVal fuel (btick :: l) = none := by
  cases fuel with
  | zero => rfl
  | succ f =>
    rw [parseVal]
    have hdw : (btick :: l).dropWhile isJsonWs = btick :: l := by
      rw [List.dropWhile_cons, show isJsonWs btick = false by decide]
      simp
    rw [hdw]
    simp only [show (btick == '"') = false by decide,
      show (btick == '\x7b') = false by decide,
      show (btick == '[') = false by decide,
      show (btick == 't') = false by decide,
      show (btick == 'f') = false by decide,
      show (btick == 'n') = false by decide,
      Bool.false_eq_true, if_false]
    simp [parseNum, show (btick == '-') = false by decide,
      List.takeWhile_cons, show btick.isDigit = false by decide]

theorem parseJson_btick (l : List Char) : parseJson (btick :: l) = none := by
  unfold parseJson
  rw [parseVal_btick]

theorem coerceKeys_id_of_validate (v : Json) (r : ResearchPaperExtraction)
    (hv : validateRPE v = some r) : coerceKeys v = v := by
  cases v with
  | obj kvs =>
    rcases hyy : getKey kvs kYear with _ | jy
    · simp [validateRPE, hyy] at hv
    · rcases haa : getKey kvs kAgency with _ | ja
      · cases jy <;> simp [validateRPE, hyy, haa] at hv
      · simp [coerceKeys, hyy, haa]
  | str s => simp [validateRPE] at hv
  | num lit => simp [validateRPE] at hv
  | bool b => simp [validateRPE] at hv
  | null => simp [validateRPE] at hv
  | arr xs => simp [validateRPE] at hv

theorem coerce_wrap (m : List Char) :
    coerce_json_from_text (wrapFence ('\x7b' :: (m ++ ['\x7d']))) =
      '\x7b' :: (m ++ ['\x7d']) := by
  unfold coerce_json_from_text wrapFence
  rw [show fence7 ++ '\n' :: (('\x7b' :: (m ++ ['\x7d'])) ++ '\n' :: fence3) =
      btick :: (([btick, btick, 'j', 's', 'o', 'n', '\n', '\x7b'] ++
        (m ++ ['\x7d', '\n', btick, btick])) ++ [btick]) by simp [fence7, fence3]]
  rw [pyStrip_sandwich _ _ _ (by decide) (by decide)]
  rw [show btick :: (([btick, btick, 'j', 's', 'o', 'n', '\n', '\x7b'] ++
        (m ++ ['\x7d', '\n', btick, btick])) ++ [btick]) =
      fence7 ++ ('\n' :: (('\x7b' :: (m ++ ['\x7d'])) ++ '\n' :: fence3)) by
    simp [fence7, fence3]]
  rw [stripFenceOpen_fence7]
  rw [pyStrip_cons_space _ _ (by decide)]
  rw [show ('\x7b' :: (m ++ ['\x7d'])) ++ '\n' :: fence3 =
      '\x7b' :: ((m ++ ['\x7d', '\n', btick, btick]) ++ [btick]) by simp [fence3]]
  rw [pyStrip_sandwich _ _ _ (by decide) (by decide)]
  rw [show '\x7b' :: ((m ++ ['\x7d', '\n', btick, btick]) ++ [btick]) =
      (('\x7b' :: (m ++ ['\x7d'])) ++ ['\n']) ++ fence3 by simp [fence3]]
  rw [stripFenceClose_snoc]
  rw [pyStrip_snoc_space _ _ (by decide)]
  rw [pyStrip_sandwich _ _ _ (by decide) (by decide)]
  unfold braceSpan
  have hfind : ('\x7b' :: (m ++ ['\x7d'])).findIdx? (· == '\x7b') = some 0 := by
    rw [List.findIdx?_cons]
    simp
  have hrfind : rfindIdx '\x7d' ('\x7b' :: (m ++ ['\x7d'])) = some (m.length + 1) := by
    unfold rfindIdx
    rw [show ('\x7b' :: (m ++ ['\x7d'])).reverse =
      '\x7d' :: (m.reverse ++ ['\x7b']) by simp]
    rw [List.findIdx?_cons]
    simp
  rw [hfind, hrfind]
  simp only [show (0 : Nat) < m.length + 1 by omega, if_true]
  rw [List.drop_zero]
  have hlen : m.length + 1 + 1 - 0 = ('\x7b' :: (m ++ ['\x7d'])).length := by simp
  rw [hlen, List.take_length]

/-- C4. For every schema-conformant JSON object text `'\x7b' :: m ++ ['\x7d']`
(parsing to `v`, validating to `r`), the stage-3 recovery path applied to
the fence-wrapped response — strip fences, cut the outermost brace span,
parse and validate — produces, through the real fallback chain, exactly the
record `r` that direct stage-2 validation produces on the unwrapped text. -/
theorem c4_fence_recovery (m : List Char) (v : Json) (r : ResearchPaperExtraction)
    (hp : parseJson ('\x7b' :: (m ++ ['\x7d'])) = some v)
    (hv : validateRPE v = some r) :
    stage2 ('\x7b' :: (m ++ ['\x7d'])) = some r ∧
    fallback_chain (wrapFence ('\x7b' :: (m ++ ['\x7d']))) =
      FallbackResult.coerced r := by
  have hs2 : stage2 ('\x7b' :: (m ++ ['\x7d'])) = some r := by
    unfold stage2
    rw [hp]
    exact hv
  refine ⟨hs2, ?_⟩
  have hwrapnone : stage2 (wrapFence ('\x7b' :: (m ++ ['\x7d']))) = none := by
    unfold stage2
    rw [show wrapFence ('\x7b' :: (m ++ ['\x7d'])) =
      btick :: ([btick, btick, 'j', 's', 'o', 'n', '\n', '\x7b'] ++
        (m ++ ['\x7d', '\n', btick, btick, btick])) by simp [wrapFence, fence7, fence3]]
    rw [parseJson_btick]
  unfold fallback_chain
  rw [hwrapnone, coerce_wrap, hp]
  show (match validateRPE (coerceKeys v) with
    | some r => FallbackResult.coerced r
    | none => FallbackResult.fail) = FallbackResult.coerced r
  rw [coerceKeys_id_of_validate v r hv, hv]

/-- Inner text of the C4 witness record (between the braces). -/
def mC4 : List Char :=
  ['"','감','사','연','도','"',':','"','a','"',',',
   '"','피','감','기','관','"',':','"','b','"',',',
   '"','감','사','결','과','"',':','[',']']

/-- Parsed JSON value of the C4 witness text. -/
def vC4 : Json :=
  Json.obj [(kYear, Json.str ['a']), (kAgency, Json.str ['b']),
            (kFindings, Json.arr [])]

/-- Validated record of the C4 witness text. -/
def rC4 : ResearchPaperExtraction := ⟨['a'], ['b'], []⟩

/-- Witness for C4 at a concrete schema-conformant response. -/
theorem c4_fence_recovery_witness :
    parseJson ('\x7b' :: (mC4 ++ ['\x7d'])) = some vC4 ∧
    validateRPE vC4 = some rC4 ∧
    (stage2 ('\x7b' :: (mC4 ++ ['\x7d'])) = some rC4 ∧
     fallback_chain (wrapFence ('\x7b' :: (mC4 ++ ['\x7d']))) =
       FallbackResult.coerced rC4) :=
  ⟨rfl, rfl, c4_fence_recovery mC4 vC4 rC4 rfl rfl⟩
